import Mathlib

/-!
# The driver loop of `example/design_sim.cc`

`main` of `design_sim.cc` drives a CXXRTL agent: it starts the debug server,
settles the design once, and then toggles the clock low/high in a `do`/`while`
loop, arming a breakpoint in the iteration whose counter is `3`.

The agent, the design and the time literals live in the CXXRTL headers, so the
embedding records every call `main` makes on them, in program order, and
interprets the recorded calls against the contracts of the specification.
-/

namespace DesignSim

/-! ## Calls made by `main` -/

/-- One observable call of `main` on its collaborators (`stderr`, the agent,
the clock port of the design).  `fprintf` keeps the format string and the
string passed for its `%s`; durations are in nanoseconds. -/
inductive Call where
  | fprintf (format arg : String)
  | start_debugging
  | step
  | advance (ns : Int)
  | set_clk (v : Bool)
  | breakpoint
  deriving DecidableEq, Repr

/-- One execution of the body of the `do`/`while` loop: the value the counter
`cycles` has while the body runs, and the calls the body makes. -/
structure Iteration where
  cycles : Nat
  calls : List Call
  deriving DecidableEq, Repr

/-- A finished run of `main`: the exit status, the calls made before the loop,
the loop iterations in order, and the value of `cycles` after the loop
(`none` when the variable was never declared). -/
structure Run where
  status : Int
  prologue : List Call
  iterations : List Iteration
  cycles : Option Nat
  deriving DecidableEq, Repr

/-- Number of values of a `size_t` (64 bit). -/
def SIZE_T_RANGE : Nat := 2 ^ 64

/-- Lines 25-34: the body of the loop for a given value of `cycles`. -/
def loop_body (cycles : Nat) : List Call :=
  [Call.advance 1, Call.set_clk false, Call.step,
   Call.advance 1, Call.set_clk true, Call.step]
    ++ (if cycles = 3 then [Call.breakpoint] else [])

/-- Lines 24-35: `do { body } while (cycles++ < 1000);`.  The condition compares
the old value of the counter and increments it afterwards, also on the last
check.  `fuel` bounds the number of iterations; `none` means it ran out. -/
def do_while : Nat → Nat → List Iteration → Option (Nat × List Iteration)
  | 0, _, _ => none
  | fuel + 1, cycles, done =>
    let done1 := done ++ [Iteration.mk cycles (loop_body cycles)]
    let cycles1 := (cycles + 1) % SIZE_T_RANGE
    if cycles < 1000 then do_while fuel cycles1 done1 else some (cycles1, done1)

/-- Lines 9-38: `main`.  `argv0` is the program name, `uri` the string that
`agent.start_debugging` returns. -/
def main (fuel : Nat) (argc : Int) (argv0 uri : String) : Option Run :=
  if argc ≠ 1 then
    some (Run.mk 1 [Call.fprintf "Usage: %s\n" argv0] [] none)
  else
    let prologue :=
      [Call.start_debugging,
       Call.fprintf "Simulation started on %s\n" uri,
       Call.step]
    match do_while fuel 0 [] with
    | none => none
    | some (cycles, its) => some (Run.mk 0 prologue its (some cycles))

/-- The calls of a list of iterations, in program order. -/
def body_calls (its : List Iteration) : List Call :=
  its.flatMap Iteration.calls

/-- The whole call trace of a run, in program order. -/
def Run.trace (r : Run) : List Call :=
  r.prologue ++ body_calls r.iterations

/-! ## The clock contract -/

/-- Errors of the agent that the driver can provoke. -/
inductive AgentError where
  | InvalidDuration
  deriving DecidableEq, Repr

/-- Modelled from the spec: the body of the agent's advance is in the CXXRTL
headers, not in this repository's sources.  Section 4.1: advancing moves
SimTime forward by exactly the duration; advancing by a non-positive duration
fails with InvalidDuration. -/
def advance (now duration : Int) : Except AgentError Int :=
  if duration ≤ 0 then Except.error AgentError.InvalidDuration
  else Except.ok (now + duration)

/-- SimTime after one call: only an advance touches the clock. -/
def clock_after (now : Int) : Call → Except AgentError Int
  | Call.advance d => advance now d
  | _ => Except.ok now

/-- One step of the clock along a trace.  The state is the current SimTime and
the calls seen so far, latest first, each with the SimTime at which it was
made; a clock error is kept. -/
def clock_fold (st : Except AgentError (Int × List (Int × Call))) (c : Call) :
    Except AgentError (Int × List (Int × Call)) :=
  match st with
  | Except.error e => Except.error e
  | Except.ok (now, seen) =>
    match clock_after now c with
    | Except.error e => Except.error e
    | Except.ok next => Except.ok (next, (now, c) :: seen)

/-- Runs the clock along a trace, starting at SimTime `now`. -/
def run_clock (now : Int) (cs : List Call) : Except AgentError (Int × List (Int × Call)) :=
  cs.foldl clock_fold (Except.ok (now, []))

/-- Every call of a trace paired with the SimTime (in ns) at which it is
made, in call order, starting from SimTime `now`. -/
def timeline (now : Int) (cs : List Call) : Except AgentError (List (Int × Call)) :=
  match run_clock now cs with
  | Except.error e => Except.error e
  | Except.ok (_, seen) => Except.ok seen.reverse

/-- SimTime after all calls of a trace, starting from `now`. -/
def sim_time (now : Int) (cs : List Call) : Except AgentError Int :=
  match run_clock now cs with
  | Except.error e => Except.error e
  | Except.ok (t, _) => Except.ok t

/-- The SimTimes at which `step()` is called, in call order. -/
def step_times (tl : List (Int × Call)) : List Int :=
  (tl.filter (fun e => decide (e.2 = Call.step))).map Prod.fst

/-- One entry of a timeline seen by the step log.  The state is the clock value
staged since the last `step()` and the log so far, latest first. -/
def log_fold (st : Option Bool × List (Int × Option Bool)) (e : Int × Call) :
    Option Bool × List (Int × Option Bool) :=
  match e.2 with
  | Call.step => (none, (e.1, st.1) :: st.2)
  | Call.set_clk v => (some v, st.2)
  | _ => st

/-- For every `step()` of a timeline, in call order: the SimTime of the call and
the clock value written since the previous `step()` (`none` when no clock
write is pending). -/
def step_log (tl : List (Int × Call)) : List (Int × Option Bool) :=
  (tl.foldl log_fold (none, [])).2.reverse

/-! ## Closed forms used by the proofs -/

/-- The iteration of the loop that runs with counter value `c`. -/
def iteration_of (c : Nat) : Iteration :=
  Iteration.mk c (loop_body c)

/-- The calls `main` makes before the loop on a valid invocation. -/
def startup_calls (uri : String) : List Call :=
  [Call.start_debugging,
   Call.fprintf "Simulation started on %s\n" uri,
   Call.step]

/-- The run that makes the startup calls and then `n` iterations of the loop,
with counter values `0, ..., n - 1`, leaving the counter at `n`. -/
def loop_run (uri : String) (n : Nat) : Run :=
  Run.mk 0 (startup_calls uri) ((List.range n).map iteration_of) (some n)

/-- The calls of the iteration with counter value `c`, each with its SimTime. -/
def body_stamps (c : Nat) : List (Int × Call) :=
  [(2 * (c : Int), Call.advance 1), (2 * (c : Int) + 1, Call.set_clk false),
   (2 * (c : Int) + 1, Call.step), (2 * (c : Int) + 1, Call.advance 1),
   (2 * (c : Int) + 2, Call.set_clk true), (2 * (c : Int) + 2, Call.step)]
    ++ (if c = 3 then [(2 * (c : Int) + 2, Call.breakpoint)] else [])

/-- The startup calls, each with its SimTime. -/
def startup_stamps (uri : String) : List (Int × Call) :=
  (startup_calls uri).map (fun c => ((0 : Int), c))

/-- The timeline of `loop_run uri n`. -/
def loop_timeline (uri : String) (n : Nat) : List (Int × Call) :=
  startup_stamps uri ++ (List.range n).flatMap body_stamps

/-- Every clock write of the trace is immediately followed by a step. -/
def StepFollowsWrite (l : List Call) : Prop :=
  ∀ pre post v, l = pre ++ Call.set_clk v :: post → ∃ rest, post = Call.step :: rest

/-- The step log entry of the step made at SimTime `k` ns inside the loop. -/
def log_entry (k : Nat) : Int × Option Bool :=
  ((k : Int), some (decide (k % 2 = 0)))

/-! ## The loop and the clock along it -/

theorem do_while_closed (fuel : Nat) :
    ∀ (c : Nat) (done : List Iteration), c ≤ 1000 → 1001 ≤ fuel + c →
      do_while fuel c done
        = some (1001, done ++ (List.range' c (1001 - c)).map iteration_of) := by
  induction fuel with
  | zero => intro c done hc hf; omega
  | succ fuel ih =>
    intro c done hc hf
    have hmod : (c + 1) % SIZE_T_RANGE = c + 1 := by
      apply Nat.mod_eq_of_lt
      have : (2 : Nat) ^ 64 = 18446744073709551616 := by norm_num
      unfold SIZE_T_RANGE
      omega
    unfold do_while
    simp only [hmod]
    by_cases h : c < 1000
    · rw [if_pos h, ih (c + 1) _ (by omega) (by omega)]
      have hlen : 1001 - c = (1001 - (c + 1)) + 1 := by omega
      rw [hlen, List.range'_succ]
      simp [iteration_of]
    · have hc1 : c = 1000 := by omega
      subst hc1
      rw [if_neg h]
      simp [iteration_of, List.range']

theorem do_while_short (fuel : Nat) :
    ∀ (c : Nat) (done : List Iteration), fuel + c < 1001 → do_while fuel c done = none := by
  induction fuel with
  | zero => intro c done _; rfl
  | succ fuel ih =>
    intro c done hf
    have hmod : (c + 1) % SIZE_T_RANGE = c + 1 := by
      apply Nat.mod_eq_of_lt
      have : (2 : Nat) ^ 64 = 18446744073709551616 := by norm_num
      unfold SIZE_T_RANGE
      omega
    unfold do_while
    simp only [hmod]
    rw [if_pos (by omega), ih (c + 1) _ (by omega)]

theorem main_valid (fuel : Nat) (argv0 uri : String) (h : 1001 ≤ fuel) :
    main fuel 1 argv0 uri = some (loop_run uri 1001) := by
  unfold main
  rw [do_while_closed fuel 0 [] (by omega) (by omega)]
  simp [loop_run, startup_calls, List.range_eq_range']

theorem main_short (fuel : Nat) (argv0 uri : String) (h : fuel < 1001) :
    main fuel 1 argv0 uri = none := by
  unfold main
  rw [do_while_short fuel 0 [] (by omega)]
  simp

theorem body_calls_map (l : List Nat) :
    body_calls (l.map iteration_of) = l.flatMap loop_body := by
  induction l with
  | nil => rfl
  | cons c l ih =>
    simp only [body_calls] at ih
    simp [body_calls, iteration_of, ih]

theorem loop_run_trace (uri : String) (n : Nat) :
    (loop_run uri n).trace = startup_calls uri ++ (List.range n).flatMap loop_body := by
  simp [Run.trace, loop_run, body_calls_map]

theorem loop_run_iterations (uri : String) (n : Nat) (it : Iteration) :
    it ∈ (loop_run uri n).iterations ↔ ∃ c, c < n ∧ it = iteration_of c := by
  simp only [loop_run, List.mem_map, List.mem_range]
  constructor
  · rintro ⟨c, hc, rfl⟩; exact ⟨c, hc, rfl⟩
  · rintro ⟨c, hc, rfl⟩; exact ⟨c, hc, rfl⟩

theorem loop_run_cycles (uri : String) (n : Nat) :
    (loop_run uri n).iterations.map Iteration.cycles = List.range n := by
  simp [loop_run, iteration_of, Function.comp_def]

theorem clock_body (c : Nat) (seen : List (Int × Call)) :
    (loop_body c).foldl clock_fold (Except.ok (2 * (c : Int), seen))
      = Except.ok (2 * (c : Int) + 2, (body_stamps c).reverse ++ seen) := by
  by_cases h : c = 3
  · subst h
    simp [loop_body, body_stamps, clock_fold, clock_after, advance]
  · simp [loop_body, body_stamps, clock_fold, clock_after, advance, h]
    ring

theorem clock_loop (n : Nat) :
    ∀ (s : Nat) (seen : List (Int × Call)),
      ((List.range' s n).flatMap loop_body).foldl clock_fold (Except.ok (2 * (s : Int), seen))
        = Except.ok (2 * ((s + n : Nat) : Int),
            ((List.range' s n).flatMap body_stamps).reverse ++ seen) := by
  induction n with
  | zero => intro s seen; simp
  | succ n ih =>
    intro s seen
    rw [List.range'_succ]
    simp only [List.flatMap_cons, List.foldl_append, clock_body]
    have h2 : 2 * (s : Int) + 2 = 2 * ((s + 1 : Nat) : Int) := by push_cast; ring
    rw [h2, ih (s + 1)]
    simp
    omega

theorem clock_startup (uri : String) :
    (startup_calls uri).foldl clock_fold (Except.ok (0, []))
      = Except.ok (0, (startup_stamps uri).reverse) := by
  simp [startup_calls, startup_stamps, clock_fold, clock_after]

theorem run_clock_upto (uri : String) (k : Nat) :
    run_clock 0 (startup_calls uri ++ (List.range k).flatMap loop_body)
      = Except.ok (2 * (k : Int),
          (startup_stamps uri ++ (List.range k).flatMap body_stamps).reverse) := by
  unfold run_clock
  rw [List.foldl_append, clock_startup, List.range_eq_range']
  have h := clock_loop k 0 (startup_stamps uri).reverse
  simp only [Nat.cast_zero, mul_zero, zero_add] at h
  rw [h]
  simp

theorem timeline_upto (uri : String) (k : Nat) :
    timeline 0 (startup_calls uri ++ (List.range k).flatMap loop_body)
      = Except.ok (startup_stamps uri ++ (List.range k).flatMap body_stamps) := by
  unfold timeline
  rw [run_clock_upto]
  simp

theorem loop_run_timeline (uri : String) (n : Nat) :
    timeline 0 (loop_run uri n).trace = Except.ok (loop_timeline uri n) := by
  rw [loop_run_trace]
  exact timeline_upto uri n

theorem sim_time_upto (uri : String) (k : Nat) :
    sim_time 0 (startup_calls uri ++ (List.range k).flatMap loop_body)
      = Except.ok (2 * (k : Int)) := by
  unfold sim_time
  rw [run_clock_upto]

/-! ## The breakpoint call (C1, C2) -/

theorem breakpoint_mem_loop_timeline (uri : String) (n : Nat) (t : Int) :
    (t, Call.breakpoint) ∈ loop_timeline uri n ↔ (3 < n ∧ t = 8) := by
  simp only [loop_timeline, List.mem_append, List.mem_flatMap, List.mem_range]
  constructor
  · rintro (h | ⟨c, hn, hc⟩)
    · simp [startup_stamps, startup_calls] at h
    · by_cases h3 : c = 3
      · subst h3
        simp [body_stamps] at hc
        omega
      · simp [body_stamps, h3] at hc
  · rintro ⟨hn, rfl⟩
    exact Or.inr ⟨3, hn, by simp [body_stamps]⟩

theorem count_breakpoint_body (c : Nat) :
    (loop_body c).count Call.breakpoint = if c = 3 then 1 else 0 := by
  by_cases h : c = 3
  · subst h; decide
  · simp [loop_body, h]

theorem count_breakpoint_loop (n : Nat) :
    ((List.range n).flatMap loop_body).count Call.breakpoint = if 3 < n then 1 else 0 := by
  induction n with
  | zero => simp
  | succ n ih =>
    rw [List.range_succ, List.flatMap_append, List.count_append, ih]
    simp only [List.flatMap_cons, List.flatMap_nil, List.append_nil, count_breakpoint_body]
    split_ifs <;> omega

/-- Claim C1 as stated fails: with the program's own loop, the breakpoint call
is made at SimTime 8 ns, which is not 6 ns. -/
theorem breakpoint_not_at_6ns :
    ∃ r tl, main 1001 1 "design_sim" "cxxrtl+tcp://localhost:6618" = some r
      ∧ timeline 0 r.trace = Except.ok tl
      ∧ ((8 : Int), Call.breakpoint) ∈ tl ∧ ((6 : Int), Call.breakpoint) ∉ tl :=
  ⟨loop_run _ 1001, loop_timeline _ 1001, main_valid 1001 _ _ (le_refl _),
    loop_run_timeline _ 1001,
    (breakpoint_mem_loop_timeline _ 1001 8).mpr ⟨by omega, rfl⟩,
    fun h6 => absurd ((breakpoint_mem_loop_timeline _ 1001 6).mp h6).2 (by decide)⟩

/-- Claim C1, amended: on a valid invocation the run has a timeline (no clock
error), the breakpoint call is on it, and the SimTime of every breakpoint call
is 8 ns: the four iterations with counter 0, 1, 2 and 3 have each advanced the
clock by 2 ns when the call is made. -/
theorem breakpoint_at_8ns (fuel : Nat) (argv0 uri : String) (h : 1001 ≤ fuel) :
    ∃ r tl, main fuel 1 argv0 uri = some r
      ∧ timeline 0 r.trace = Except.ok tl
      ∧ ∀ t, (t, Call.breakpoint) ∈ tl ↔ t = 8 :=
  ⟨loop_run uri 1001, loop_timeline uri 1001, main_valid fuel argv0 uri h,
    loop_run_timeline uri 1001, fun t =>
      (breakpoint_mem_loop_timeline uri 1001 t).trans ⟨fun hh => hh.2, fun hh => ⟨by omega, hh⟩⟩⟩

theorem breakpoint_at_8ns_witness :
    1001 ≤ 1001 ∧ ∃ r tl, main 1001 1 "design_sim" "cxxrtl+tcp://localhost:6618" = some r
      ∧ timeline 0 r.trace = Except.ok tl
      ∧ ∀ t, (t, Call.breakpoint) ∈ tl ↔ t = 8 :=
  ⟨le_refl _, breakpoint_at_8ns 1001 "design_sim" "cxxrtl+tcp://localhost:6618" (le_refl _)⟩

/-- Claim C2: over a whole valid run the breakpoint call is made exactly once;
it is not among the startup calls, an iteration makes it (once) exactly when
its counter is 3, and exactly one iteration has counter 3. -/
theorem breakpoint_once_at_cycle_3 (fuel : Nat) (argv0 uri : String) (h : 1001 ≤ fuel) :
    ∃ r, main fuel 1 argv0 uri = some r
      ∧ r.trace.count Call.breakpoint = 1
      ∧ r.prologue.count Call.breakpoint = 0
      ∧ (∀ it ∈ r.iterations,
          it.calls.count Call.breakpoint = if it.cycles = 3 then 1 else 0)
      ∧ (r.iterations.map Iteration.cycles).count 3 = 1 := by
  refine ⟨loop_run uri 1001, main_valid fuel argv0 uri h, ?_, ?_, ?_, ?_⟩
  · rw [loop_run_trace, List.count_append, count_breakpoint_loop]
    simp [startup_calls]
  · simp [loop_run, startup_calls]
  · intro it hit
    obtain ⟨c, _, rfl⟩ := (loop_run_iterations uri 1001 it).mp hit
    exact count_breakpoint_body c
  · rw [loop_run_cycles]
    exact List.count_eq_one_of_mem (List.nodup_range 1001) (List.mem_range.mpr (by omega))

theorem breakpoint_once_at_cycle_3_witness :
    1001 ≤ 1001 ∧ ∃ r, main 1001 1 "design_sim" "cxxrtl+tcp://localhost:6618" = some r
      ∧ r.trace.count Call.breakpoint = 1
      ∧ r.prologue.count Call.breakpoint = 0
      ∧ (∀ it ∈ r.iterations,
          it.calls.count Call.breakpoint = if it.cycles = 3 then 1 else 0)
      ∧ (r.iterations.map Iteration.cycles).count 3 = 1 :=
  ⟨le_refl _, breakpoint_once_at_cycle_3 1001 "design_sim" "cxxrtl+tcp://localhost:6618" (le_refl _)⟩

/-! ## Number of iterations (C3) -/

/-- Claim C3 as stated fails: a valid run of the program executes the loop body
1001 times, not 1000 times. -/
theorem loop_not_1000_times :
    ∃ r, main 1001 1 "design_sim" "cxxrtl+tcp://localhost:6618" = some r
      ∧ r.iterations.length = 1001 ∧ r.iterations.length ≠ 1000 :=
  ⟨loop_run _ 1001, main_valid 1001 _ _ (le_refl _), by simp [loop_run], by simp [loop_run]⟩

/-- Claim C3, amended: on a valid invocation the loop body is executed exactly
1001 times, for the counter values 0, 1, ..., 1000 in this order, and with
fewer than 1001 iterations the loop is not through.  Each execution makes
exactly advance(1ns), clock low, step(), advance(1ns), clock high, step(),
followed by the breakpoint call when its counter is 3 and by nothing
otherwise. -/
theorem loop_1001_times (fuel : Nat) (argv0 uri : String) (h : 1001 ≤ fuel) :
    ∃ r, main fuel 1 argv0 uri = some r
      ∧ r.iterations.length = 1001
      ∧ r.iterations.map Iteration.cycles = List.range 1001
      ∧ (∀ it ∈ r.iterations,
          it.calls
            = [Call.advance 1, Call.set_clk false, Call.step,
               Call.advance 1, Call.set_clk true, Call.step]
              ++ (if it.cycles = 3 then [Call.breakpoint] else []))
      ∧ ∀ less, less < 1001 → main less 1 argv0 uri = none := by
  refine ⟨loop_run uri 1001, main_valid fuel argv0 uri h, by simp [loop_run],
    loop_run_cycles uri 1001, ?_, fun less hl => main_short less argv0 uri hl⟩
  intro it hit
  obtain ⟨c, _, rfl⟩ := (loop_run_iterations uri 1001 it).mp hit
  simp only [iteration_of, loop_body]

theorem loop_1001_times_witness :
    1001 ≤ 1001 ∧ ∃ r, main 1001 1 "design_sim" "cxxrtl+tcp://localhost:6618" = some r
      ∧ r.iterations.length = 1001
      ∧ r.iterations.map Iteration.cycles = List.range 1001
      ∧ (∀ it ∈ r.iterations,
          it.calls
            = [Call.advance 1, Call.set_clk false, Call.step,
               Call.advance 1, Call.set_clk true, Call.step]
              ++ (if it.cycles = 3 then [Call.breakpoint] else []))
      ∧ ∀ less, less < 1001 → main less 1 "design_sim" "cxxrtl+tcp://localhost:6618" = none :=
  ⟨le_refl _, loop_1001_times 1001 "design_sim" "cxxrtl+tcp://localhost:6618" (le_refl _)⟩

/-! ## Exit status and startup (C4, C5) -/

/-- Claim C4: an invocation with argc different from 1 returns exit status 1,
whatever the fuel, and its only call is the usage print (so no start_debugging,
step, advance, breakpoint or clock write); an invocation with argc = 1 returns
exit status 0 once the loop is through. -/
theorem main_exit_status (fuel : Nat) (argc : Int) (argv0 uri : String)
    (h : argc ≠ 1 ∨ 1001 ≤ fuel) :
    ∃ r, main fuel argc argv0 uri = some r
      ∧ r.status = (if argc = 1 then 0 else 1)
      ∧ (argc ≠ 1 →
          r.status ≠ 0
          ∧ r.trace = [Call.fprintf "Usage: %s\n" argv0]
          ∧ ∀ c ∈ r.trace,
              c ≠ Call.start_debugging ∧ c ≠ Call.step ∧ c ≠ Call.breakpoint
              ∧ (∀ d, c ≠ Call.advance d) ∧ (∀ v, c ≠ Call.set_clk v)) := by
  by_cases hargc : argc = 1
  · subst hargc
    have hf : 1001 ≤ fuel := by
      rcases h with h | h
      · exact absurd rfl h
      · exact h
    exact ⟨loop_run uri 1001, main_valid fuel argv0 uri hf, by simp [loop_run],
      fun hne => absurd rfl hne⟩
  · refine ⟨Run.mk 1 [Call.fprintf "Usage: %s\n" argv0] [] none,
      by simp [main, hargc], by simp [hargc], fun _ => ⟨by simp, by simp [Run.trace, body_calls], ?_⟩⟩
    intro c hc
    simp only [Run.trace, body_calls, List.flatMap_nil, List.append_nil,
      List.mem_singleton] at hc
    subst hc
    simp

theorem main_exit_status_witness :
    ((2 : Int) ≠ 1 ∨ 1001 ≤ 0)
    ∧ ∃ r, main 0 2 "design_sim" "cxxrtl+tcp://localhost:6618" = some r
      ∧ r.status = (if (2 : Int) = 1 then 0 else 1)
      ∧ ((2 : Int) ≠ 1 →
          r.status ≠ 0
          ∧ r.trace = [Call.fprintf "Usage: %s\n" "design_sim"]
          ∧ ∀ c ∈ r.trace,
              c ≠ Call.start_debugging ∧ c ≠ Call.step ∧ c ≠ Call.breakpoint
              ∧ (∀ d, c ≠ Call.advance d) ∧ (∀ v, c ≠ Call.set_clk v)) :=
  ⟨Or.inl (by decide),
    main_exit_status 0 2 "design_sim" "cxxrtl+tcp://localhost:6618" (Or.inl (by decide))⟩

theorem not_mem_loop (n : Nat) (x : Call) (hx : ∀ c, x ∉ loop_body c) :
    x ∉ (List.range n).flatMap loop_body := by
  intro hmem
  obtain ⟨c, _, hc⟩ := List.mem_flatMap.mp hmem
  exact hx c hc

/-- Claim C5: on a valid invocation the trace starts with start_debugging,
immediately followed by the startup print, whose format is
"Simulation started on %s" plus a newline and whose string argument is exactly
the address that start_debugging returned; so no step, advance or clock write
precedes start_debugging.  It is called exactly once, and nothing else is
printed. -/
theorem start_debugging_once_first (fuel : Nat) (argv0 uri : String) (h : 1001 ≤ fuel) :
    ∃ r rest, main fuel 1 argv0 uri = some r
      ∧ r.trace = Call.start_debugging
          :: Call.fprintf "Simulation started on %s\n" uri
          :: rest
      ∧ r.trace.count Call.start_debugging = 1
      ∧ Call.start_debugging ∉ rest
      ∧ ∀ format arg, Call.fprintf format arg ∉ rest := by
  have hsd : Call.start_debugging ∉ (List.range 1001).flatMap loop_body :=
    not_mem_loop 1001 _ (fun c => by by_cases h3 : c = 3 <;> simp [loop_body, h3])
  have hpr : ∀ format arg, Call.fprintf format arg ∉ (List.range 1001).flatMap loop_body :=
      fun format arg =>
    not_mem_loop 1001 _ (fun c => by by_cases h3 : c = 3 <;> simp [loop_body, h3])
  refine ⟨loop_run uri 1001, Call.step :: (List.range 1001).flatMap loop_body,
    main_valid fuel argv0 uri h, ?_, ?_, ?_, ?_⟩
  · rw [loop_run_trace]
    simp only [startup_calls, List.cons_append, List.nil_append]
  · rw [loop_run_trace, List.count_append, List.count_eq_zero_of_not_mem hsd]
    simp [startup_calls]
  · intro hmem
    rcases List.mem_cons.mp hmem with h1 | h1
    · exact absurd h1 (by decide)
    · exact hsd h1
  · intro format arg hmem
    rcases List.mem_cons.mp hmem with h1 | h1
    · exact absurd h1 (by simp)
    · exact hpr format arg h1

theorem start_debugging_once_first_witness :
    1001 ≤ 1001
    ∧ ∃ r rest, main 1001 1 "design_sim" "cxxrtl+tcp://localhost:6618" = some r
      ∧ r.trace = Call.start_debugging
          :: Call.fprintf "Simulation started on %s\n" "cxxrtl+tcp://localhost:6618"
          :: rest
      ∧ r.trace.count Call.start_debugging = 1
      ∧ Call.start_debugging ∉ rest
      ∧ ∀ format arg, Call.fprintf format arg ∉ rest :=
  ⟨le_refl _,
    start_debugging_once_first 1001 "design_sim" "cxxrtl+tcp://localhost:6618" (le_refl _)⟩

/-! ## SimTime of the step calls (C6) -/

theorem flatMap_pairs {α : Type} (f : Nat → α) (n : Nat) :
    (List.range n).flatMap (fun c => [f (2 * c + 1), f (2 * c + 2)])
      = (List.range' 1 (2 * n)).map f := by
  induction n with
  | zero => simp
  | succ n ih =>
    have h2 : 2 * (n + 1) = (2 * n + 1) + 1 := by ring
    have e1 : 1 + 1 * (2 * n) = 2 * n + 1 := by ring
    have e2 : 1 + 1 * (2 * n + 1) = 2 * n + 2 := by ring
    rw [List.range_succ, List.flatMap_append, ih, h2, List.range'_concat, List.range'_concat,
      e1, e2]
    simp

theorem step_times_body (c : Nat) :
    step_times (body_stamps c) = [((2 * c + 1 : Nat) : Int), ((2 * c + 2 : Nat) : Int)] := by
  by_cases h : c = 3
  · subst h
    simp [step_times, body_stamps, List.filter]
  · simp [step_times, body_stamps, List.filter, h]

theorem step_times_loop (uri : String) (n : Nat) :
    step_times (loop_timeline uri n)
      = 0 :: (List.range' 1 (2 * n)).map (fun k : Nat => (k : Int)) := by
  rw [← flatMap_pairs (fun k : Nat => (k : Int)) n]
  have hb : ∀ c, List.map Prod.fst
      (List.filter (fun e => decide (e.2 = Call.step)) (body_stamps c))
        = [((2 * c + 1 : Nat) : Int), ((2 * c + 2 : Nat) : Int)] := step_times_body
  simp only [step_times, loop_timeline, List.filter_append, List.map_append,
    List.filter_flatMap, List.map_flatMap, hb]
  simp [startup_stamps, startup_calls, List.filter]

theorem step_times_sorted (uri : String) (n : Nat) :
    List.Pairwise (fun a b => a < b) (step_times (loop_timeline uri n)) := by
  rw [step_times_loop, List.pairwise_cons]
  constructor
  · intro a ha
    obtain ⟨k, hk, rfl⟩ := List.mem_map.mp ha
    have := (List.mem_range'_1.mp hk).1
    omega
  · rw [List.pairwise_map]
    exact (List.pairwise_lt_range' 1 (2 * n)).imp (fun hab => by omega)

/-- Claim C6: on a valid invocation the SimTimes at which main calls step()
are, in call order, strictly increasing from each call to the next (hence
non-decreasing over any two calls). -/
theorem step_times_increasing (fuel : Nat) (argv0 uri : String) (h : 1001 ≤ fuel) :
    ∃ r tl, main fuel 1 argv0 uri = some r
      ∧ timeline 0 r.trace = Except.ok tl
      ∧ (step_times tl).length = 2003
      ∧ List.Chain' (fun a b => a < b) (step_times tl)
      ∧ List.Pairwise (fun a b => a ≤ b) (step_times tl) := by
  refine ⟨loop_run uri 1001, loop_timeline uri 1001, main_valid fuel argv0 uri h,
    loop_run_timeline uri 1001, ?_, (step_times_sorted uri 1001).chain',
    (step_times_sorted uri 1001).imp (fun hab => le_of_lt hab)⟩
  rw [step_times_loop]
  simp [List.length_range']

theorem step_times_increasing_witness :
    1001 ≤ 1001
    ∧ ∃ r tl, main 1001 1 "design_sim" "cxxrtl+tcp://localhost:6618" = some r
      ∧ timeline 0 r.trace = Except.ok tl
      ∧ (step_times tl).length = 2003
      ∧ List.Chain' (fun a b => a < b) (step_times tl)
      ∧ List.Pairwise (fun a b => a ≤ b) (step_times tl) :=
  ⟨le_refl _, step_times_increasing 1001 "design_sim" "cxxrtl+tcp://localhost:6618" (le_refl _)⟩

/-! ## Clock writes are followed by a step (C7) -/

theorem stepFollowsWrite_nil : StepFollowsWrite [] := by
  intro pre post v h
  simp at h

theorem stepFollowsWrite_cons (x : Call) (l : List Call) (hx : ∀ v, x ≠ Call.set_clk v)
    (hl : StepFollowsWrite l) : StepFollowsWrite (x :: l) := by
  intro pre post v h
  rcases List.cons_eq_append_iff.mp h with ⟨_, h2⟩ | ⟨pre1, _, h2⟩
  · injection h2 with h3 _
    exact absurd h3.symm (hx v)
  · exact hl pre1 post v h2

theorem stepFollowsWrite_write (w : Bool) (l : List Call)
    (hl : StepFollowsWrite (Call.step :: l)) :
    StepFollowsWrite (Call.set_clk w :: Call.step :: l) := by
  intro pre post v h
  rcases List.cons_eq_append_iff.mp h with ⟨_, h2⟩ | ⟨pre1, _, h2⟩
  · injection h2 with _ h3
    exact ⟨l, h3⟩
  · exact hl pre1 post v h2

theorem stepFollowsWrite_body (c : Nat) (l : List Call) (hl : StepFollowsWrite l) :
    StepFollowsWrite (loop_body c ++ l) := by
  have hbp : StepFollowsWrite (Call.breakpoint :: l) :=
    stepFollowsWrite_cons _ _ (fun v => by simp) hl
  have key : ∀ tail, StepFollowsWrite tail →
      StepFollowsWrite (Call.advance 1 :: Call.set_clk false :: Call.step
        :: Call.advance 1 :: Call.set_clk true :: Call.step :: tail) := by
    intro tail ht
    apply stepFollowsWrite_cons _ _ (fun v => by simp)
    apply stepFollowsWrite_write
    apply stepFollowsWrite_cons _ _ (fun v => by simp)
    apply stepFollowsWrite_cons _ _ (fun v => by simp)
    apply stepFollowsWrite_write
    exact stepFollowsWrite_cons _ _ (fun v => by simp) ht
  by_cases h : c = 3
  · subst h
    simpa [loop_body] using key _ hbp
  · simpa [loop_body, h] using key _ hl

theorem stepFollowsWrite_loop (l : List Nat) :
    StepFollowsWrite (l.flatMap loop_body) := by
  induction l with
  | nil => exact stepFollowsWrite_nil
  | cons c l ih =>
    rw [List.flatMap_cons]
    exact stepFollowsWrite_body c _ ih

/-- Claim C7: in the call trace of a valid run, wherever a clock write occurs
the very next call is step(): no advance or second clock write comes in
between, and the trace never ends on a clock write. -/
theorem clock_write_then_step (fuel : Nat) (argv0 uri : String) (h : 1001 ≤ fuel) :
    ∃ r, main fuel 1 argv0 uri = some r
      ∧ ∀ pre post v, r.trace = pre ++ Call.set_clk v :: post →
          ∃ rest, post = Call.step :: rest := by
  refine ⟨loop_run uri 1001, main_valid fuel argv0 uri h, ?_⟩
  have hs : StepFollowsWrite (loop_run uri 1001).trace := by
    rw [loop_run_trace]
    simp only [startup_calls, List.cons_append, List.nil_append]
    apply stepFollowsWrite_cons _ _ (fun v => by simp)
    apply stepFollowsWrite_cons _ _ (fun v => by simp)
    exact stepFollowsWrite_cons _ _ (fun v => by simp) (stepFollowsWrite_loop _)
  exact hs

theorem clock_write_then_step_witness :
    1001 ≤ 1001
    ∧ ∃ r, main 1001 1 "design_sim" "cxxrtl+tcp://localhost:6618" = some r
      ∧ ∀ pre post v, r.trace = pre ++ Call.set_clk v :: post →
          ∃ rest, post = Call.step :: rest :=
  ⟨le_refl _, clock_write_then_step 1001 "design_sim" "cxxrtl+tcp://localhost:6618" (le_refl _)⟩

/-! ## The step log in closed form (C8) -/

theorem log_body (c : Nat) (acc : List (Int × Option Bool)) :
    (body_stamps c).foldl log_fold (none, acc)
      = (none, (((2 * c + 2 : Nat) : Int), some true)
          :: (((2 * c + 1 : Nat) : Int), some false) :: acc) := by
  by_cases h : c = 3
  · subst h
    simp [body_stamps, log_fold]
  · simp [body_stamps, log_fold, h]

theorem log_loop (n : Nat) (acc : List (Int × Option Bool)) :
    ((List.range n).flatMap body_stamps).foldl log_fold (none, acc)
      = (none, ((List.range n).flatMap (fun c =>
          [(((2 * c + 1 : Nat) : Int), some false),
           (((2 * c + 2 : Nat) : Int), some true)])).reverse ++ acc) := by
  induction n with
  | zero => simp
  | succ n ih =>
    rw [List.range_succ, List.flatMap_append, List.foldl_append, ih]
    simp only [List.flatMap_cons, List.flatMap_nil, List.append_nil, log_body,
      List.flatMap_append, List.reverse_append, List.reverse_cons, List.reverse_nil,
      List.nil_append, List.cons_append, List.append_assoc]

theorem step_log_loop (uri : String) (n : Nat) :
    step_log (loop_timeline uri n) = (0, none) :: (List.range' 1 (2 * n)).map log_entry := by
  rw [← flatMap_pairs log_entry n]
  have he : ∀ c : Nat, [log_entry (2 * c + 1), log_entry (2 * c + 2)]
      = [(((2 * c + 1 : Nat) : Int), some false), (((2 * c + 2 : Nat) : Int), some true)] := by
    intro c
    have h1 : (2 * c + 1) % 2 = 1 := by omega
    have h2 : (2 * c + 2) % 2 = 0 := by omega
    simp [log_entry, h1, h2]
  simp only [he]
  unfold step_log loop_timeline
  have hs : (startup_stamps uri).foldl log_fold (none, []) = (none, [(0, none)]) := by
    simp [startup_stamps, startup_calls, log_fold]
  rw [List.foldl_append, hs, log_loop]
  simp

theorem take_iterations (uri : String) (n k : Nat) (hk : k ≤ n) :
    (loop_run uri n).prologue ++ body_calls ((loop_run uri n).iterations.take k)
      = startup_calls uri ++ (List.range k).flatMap loop_body := by
  simp only [loop_run]
  rw [← List.map_take, List.take_range, Nat.min_eq_left hk, body_calls_map]

/-- Claim C8: on a valid invocation the loop makes 2002 steps after the initial
one (which is at SimTime 0 with no clock write pending); for 1 ≤ n ≤ 2002 the
n-th of them is made at SimTime n ns, with the clock just written low when n
is odd and high when n is even; and after k complete iterations (k ≤ 1001)
SimTime is 2k ns. -/
theorem nth_step_at_n_ns (fuel : Nat) (argv0 uri : String) (n : Nat)
    (h : 1001 ≤ fuel) (h1 : 1 ≤ n) (h2 : n ≤ 2002) :
    ∃ r tl, main fuel 1 argv0 uri = some r
      ∧ timeline 0 r.trace = Except.ok tl
      ∧ (step_log tl).length = 2003
      ∧ (step_log tl)[0]? = some (0, none)
      ∧ (step_log tl)[n]? = some ((n : Int), some (decide (n % 2 = 0)))
      ∧ ∀ k, k ≤ 1001 →
          sim_time 0 (r.prologue ++ body_calls (r.iterations.take k))
            = Except.ok (2 * (k : Int)) := by
  refine ⟨loop_run uri 1001, loop_timeline uri 1001, main_valid fuel argv0 uri h,
    loop_run_timeline uri 1001, ?_, ?_, ?_, ?_⟩
  · rw [step_log_loop]
    simp [List.length_range']
  · rw [step_log_loop]
    simp
  · obtain ⟨m, rfl⟩ : ∃ m, n = m + 1 := ⟨n - 1, by omega⟩
    rw [step_log_loop, List.getElem?_cons_succ, List.getElem?_map,
      List.getElem?_range' 1 1 (by omega : m < 2 * 1001)]
    have hm : 1 + 1 * m = m + 1 := by ring
    rw [hm]
    simp [log_entry]
  · intro k hk
    rw [take_iterations uri 1001 k hk]
    exact sim_time_upto uri k

theorem nth_step_at_n_ns_witness :
    1001 ≤ 1001 ∧ 1 ≤ 5 ∧ 5 ≤ 2002
    ∧ ∃ r tl, main 1001 1 "design_sim" "cxxrtl+tcp://localhost:6618" = some r
      ∧ timeline 0 r.trace = Except.ok tl
      ∧ (step_log tl).length = 2003
      ∧ (step_log tl)[0]? = some (0, none)
      ∧ (step_log tl)[5]? = some (((5 : Nat) : Int), some (decide (5 % 2 = 0)))
      ∧ ∀ k, k ≤ 1001 →
          sim_time 0 (r.prologue ++ body_calls (r.iterations.take k))
            = Except.ok (2 * (k : Int)) :=
  ⟨le_refl _, by decide, by decide,
    nth_step_at_n_ns 1001 "design_sim" "cxxrtl+tcp://localhost:6618" 5
      (le_refl _) (by decide) (by decide)⟩

/-! ## Durations, counts and termination (C9, C10) -/

theorem advance_mem_loop_run (uri : String) (n : Nat) (d : Int)
    (hd : Call.advance d ∈ (loop_run uri n).trace) : d = 1 := by
  rw [loop_run_trace, List.mem_append] at hd
  rcases hd with hd | hd
  · simp [startup_calls] at hd
  · obtain ⟨c, _, hc⟩ := List.mem_flatMap.mp hd
    by_cases h3 : c = 3
    · subst h3
      simp [loop_body] at hc
      exact hc
    · simp [loop_body, h3] at hc
      exact hc

theorem count_loop (x : Call) (k : Nat) (hx : ∀ c, (loop_body c).count x = k) (n : Nat) :
    ((List.range n).flatMap loop_body).count x = k * n := by
  induction n with
  | zero => simp
  | succ n ih =>
    rw [List.range_succ, List.flatMap_append, List.count_append, ih]
    simp only [List.flatMap_cons, List.flatMap_nil, List.append_nil, hx]
    ring

theorem count_step_body (c : Nat) : (loop_body c).count Call.step = 2 := by
  by_cases h : c = 3
  · subst h; decide
  · simp [loop_body, h]

theorem count_advance_body (c : Nat) : (loop_body c).count (Call.advance 1) = 2 := by
  by_cases h : c = 3
  · subst h; decide
  · simp [loop_body, h]

/-- Claim C9: on a valid invocation every advance call of main has duration
exactly 1 ns, which is positive, so the modelled advance never fails with
InvalidDuration on it and the clock runs along the whole trace without error. -/
theorem advance_durations_positive (fuel : Nat) (argv0 uri : String) (h : 1001 ≤ fuel) :
    ∃ r, main fuel 1 argv0 uri = some r
      ∧ (∀ d, Call.advance d ∈ r.trace →
          d = 1 ∧ 0 < d ∧ ∀ now, advance now d = Except.ok (now + 1))
      ∧ ∃ tl, timeline 0 r.trace = Except.ok tl := by
  refine ⟨loop_run uri 1001, main_valid fuel argv0 uri h, ?_,
    loop_timeline uri 1001, loop_run_timeline uri 1001⟩
  intro d hd
  have h1 : d = 1 := advance_mem_loop_run uri 1001 d hd
  subst h1
  exact ⟨rfl, by decide, fun now => by simp [advance]⟩

theorem advance_durations_positive_witness :
    1001 ≤ 1001
    ∧ ∃ r, main 1001 1 "design_sim" "cxxrtl+tcp://localhost:6618" = some r
      ∧ (∀ d, Call.advance d ∈ r.trace →
          d = 1 ∧ 0 < d ∧ ∀ now, advance now d = Except.ok (now + 1))
      ∧ ∃ tl, timeline 0 r.trace = Except.ok tl :=
  ⟨le_refl _,
    advance_durations_positive 1001 "design_sim" "cxxrtl+tcp://localhost:6618" (le_refl _)⟩

/-- Claim C10: with fuel for 1001 iterations main returns (status 0); with less
it does not get through the loop.  The body runs for the counter values
0, 1, ..., 1000 in this order (1001 iterations), the counter is 1001 after the
loop, and the run makes 2003 step calls and 2002 advance calls, all of 1 ns,
ending at SimTime 2002 ns. -/
theorem loop_terminates (fuel : Nat) (argv0 uri : String) (h : 1001 ≤ fuel) :
    ∃ r, main fuel 1 argv0 uri = some r
      ∧ r.status = 0
      ∧ r.iterations.map Iteration.cycles = List.range 1001
      ∧ r.iterations.length = 1001
      ∧ r.cycles = some 1001
      ∧ r.trace.count Call.step = 2003
      ∧ r.trace.count (Call.advance 1) = 2002
      ∧ (∀ d, Call.advance d ∈ r.trace → d = 1)
      ∧ sim_time 0 r.trace = Except.ok 2002
      ∧ ∀ less, less < 1001 → main less 1 argv0 uri = none := by
  refine ⟨loop_run uri 1001, main_valid fuel argv0 uri h, rfl, loop_run_cycles uri 1001,
    by simp [loop_run], rfl, ?_, ?_, advance_mem_loop_run uri 1001, ?_,
    fun less hl => main_short less argv0 uri hl⟩
  · rw [loop_run_trace, List.count_append, count_loop _ 2 count_step_body]
    simp [startup_calls]
  · rw [loop_run_trace, List.count_append, count_loop _ 2 count_advance_body]
    simp [startup_calls]
  · rw [loop_run_trace, sim_time_upto]
    norm_num

theorem loop_terminates_witness :
    1001 ≤ 1001
    ∧ ∃ r, main 1001 1 "design_sim" "cxxrtl+tcp://localhost:6618" = some r
      ∧ r.status = 0
      ∧ r.iterations.map Iteration.cycles = List.range 1001
      ∧ r.iterations.length = 1001
      ∧ r.cycles = some 1001
      ∧ r.trace.count Call.step = 2003
      ∧ r.trace.count (Call.advance 1) = 2002
      ∧ (∀ d, Call.advance d ∈ r.trace → d = 1)
      ∧ sim_time 0 r.trace = Except.ok 2002
      ∧ ∀ less, less < 1001 → main less 1 "design_sim" "cxxrtl+tcp://localhost:6618" = none :=
  ⟨le_refl _, loop_terminates 1001 "design_sim" "cxxrtl+tcp://localhost:6618" (le_refl _)⟩

end DesignSim
